import Mathlib

/-!
Verification development for the FidelityFX remote-rendering fork.

Shallow embedding of:
* `BufferRing` (network relay double-buffered queue, `fsrremote` headers);
* `TSROps` / `DX12Ops` (shared GPU buffer ring and transfer engine);
* the FPS limiter render module (CPU busy-wait and GPU feedback modes);
* `Streamer::Encode` (bounded pipe-write retry loop).

Machine integers are modelled as `Nat` (all quantities involved stay far from
2^64, and the source never relies on wraparound); byte blobs are `List Nat`;
fatal assertions (`AssertCritical` / `CauldronAssert(ASSERT_CRITICAL, ...)`)
are modelled by returning `none` from the operation.
-/

namespace Relay

/-- BufferState of one network buffer (header `BufferState` enum). -/
inductive BufferState where
  | Empty
  | Allocated
  | Ready
deriving DecidableEq, Repr

/-- The BufferRing class fields.  A buffer (`FSRData`, a heap blob) is
modelled as a `List Nat` of bytes; the identity of a buffer (the pointer the
C++ methods return and look up with `getBufferIndex`) is modelled as its slot
index, since distinct slots are distinct allocations. -/
structure BufferRing where
  mBuffers : List (List Nat)
  mState : List BufferState
  mBufferSize : Nat
  mReadIndex : Nat
  mWriteIndex : Nat
deriving DecidableEq, Repr

/-- The three mutexes of `BufferRing`. -/
inductive RingLock where
  | state
  | write
  | read
deriving DecidableEq, Repr

/-- Locks acquired by `BufferRing::reset`, in acquisition order: the three
`lock_guard` declarations at the top of its body. -/
def resetLocksAcquired : List RingLock := [RingLock.state, RingLock.write, RingLock.read]

/-- `updateState(index, state)`: `mState[index] = state`. -/
def BufferRing.updateState (r : BufferRing) (index : Nat) (s : BufferState) : BufferRing :=
  { r with mState := r.mState.set index s }

/-- The body of the `for` loop in `reset`, iterated for `i = 0 .. n-1`:
`updateState(i, Empty); mBuffers[i].reset(new uint8_t[mBufferSize])` (the new
allocation is modelled as zero bytes). -/
def BufferRing.resetSlots (r : BufferRing) (size : Nat) : Nat → BufferRing
  | 0 => r
  | n + 1 =>
      let r' := r.resetSlots size n
      { r' with
        mState := r'.mState.set n BufferState.Empty
        mBuffers := r'.mBuffers.set n (List.replicate size 0) }

/-- `reset(size)`: under all three locks, sets `mBufferSize = size` and runs
the reallocation loop over `mBuffers.size()` slots. -/
def BufferRing.reset (r : BufferRing) (size : Nat) : BufferRing :=
  BufferRing.resetSlots { r with mBufferSize := size } size r.mBuffers.length

/-- `releaseBuffer(buffer)`: identity lookup via `getBufferIndex`, then
`updateState(index, Empty)`; a failed lookup (index -1) is a no-op. -/
def BufferRing.releaseBuffer (r : BufferRing) (index : Nat) : BufferRing :=
  if index < r.mBuffers.length then r.updateState index BufferState.Empty else r

/-- `markBufferReady(buffer)`: identity lookup, then `updateState(index, Ready)`. -/
def BufferRing.markBufferReady (r : BufferRing) (index : Nat) : BufferRing :=
  if index < r.mBuffers.length then r.updateState index BufferState.Ready else r

/-- `getNextReadyBuffer()`: reads the slot at `mReadIndex % mState.size()`;
if that slot is `Ready`, increments `mReadIndex` and returns the slot's
buffer, else returns null (`none`). -/
def BufferRing.getNextReadyBuffer (r : BufferRing) : Option (Nat × BufferRing) :=
  let index := r.mReadIndex % r.mState.length
  if r.mState.getD index BufferState.Empty = BufferState.Ready then
    some (index, { r with mReadIndex := r.mReadIndex + 1 })
  else
    none

/-- `nextBufferReady()`. -/
def BufferRing.nextBufferReady (r : BufferRing) : Bool :=
  r.mState.getD (r.mReadIndex % r.mState.length) BufferState.Empty = BufferState.Ready

/-- `getNextEmptyBuffer(requestedSize)`: null when the negotiated size
differs from the request; otherwise reads the slot at
`mWriteIndex % mState.size()`; if `Empty`, increments `mWriteIndex`, marks the
slot `Allocated` and returns it, else null. -/
def BufferRing.getNextEmptyBuffer (r : BufferRing) (requestedSize : Nat) :
    Option (Nat × BufferRing) :=
  if r.mBufferSize ≠ requestedSize then
    none
  else
    let index := r.mWriteIndex % r.mState.length
    if r.mState.getD index BufferState.Empty = BufferState.Empty then
      some (index, BufferRing.updateState { r with mWriteIndex := r.mWriteIndex + 1 } index BufferState.Allocated)
    else
      none

end Relay

section ListHelpers

variable {α : Type}

theorem getD_set_self (l : List α) (i : Nat) (a d : α) (h : i < l.length) :
    (l.set i a).getD i d = a := by
  simp [List.getD_eq_getElem?_getD, List.getElem?_set_self', List.getElem?_eq_getElem h]

theorem getD_set_ne (l : List α) (i j : Nat) (a d : α) (h : i ≠ j) :
    (l.set i a).getD j d = l.getD j d := by
  simp [List.getD_eq_getElem?_getD, List.getElem?_set_ne h]

theorem getD_replicate (n i : Nat) (a d : α) (h : i < n) :
    (List.replicate n a).getD i d = a := by
  simp [List.getD_eq_getElem?_getD, List.getElem?_replicate, h]

end ListHelpers

namespace Relay

theorem resetSlots_length_state (r : BufferRing) (size n : Nat) :
    (r.resetSlots size n).mState.length = r.mState.length := by
  induction n with
  | zero => rfl
  | succ n ih => simp [BufferRing.resetSlots, ih]

theorem resetSlots_length_buffers (r : BufferRing) (size n : Nat) :
    (r.resetSlots size n).mBuffers.length = r.mBuffers.length := by
  induction n with
  | zero => rfl
  | succ n ih => simp [BufferRing.resetSlots, ih]

theorem resetSlots_size (r : BufferRing) (size n : Nat) :
    (r.resetSlots size n).mBufferSize = r.mBufferSize := by
  induction n with
  | zero => rfl
  | succ n ih => simp [BufferRing.resetSlots, ih]

theorem resetSlots_read (r : BufferRing) (size n : Nat) :
    (r.resetSlots size n).mReadIndex = r.mReadIndex := by
  induction n with
  | zero => rfl
  | succ n ih => simp [BufferRing.resetSlots, ih]

theorem resetSlots_write (r : BufferRing) (size n : Nat) :
    (r.resetSlots size n).mWriteIndex = r.mWriteIndex := by
  induction n with
  | zero => rfl
  | succ n ih => simp [BufferRing.resetSlots, ih]

theorem resetSlots_state_getD (r : BufferRing) (size n i : Nat)
    (hi : i < n) (hlen : i < r.mState.length) :
    (r.resetSlots size n).mState.getD i BufferState.Empty = BufferState.Empty := by
  induction n with
  | zero => omega
  | succ n ih =>
      by_cases h : i = n
      · subst h
        simp only [BufferRing.resetSlots]
        exact getD_set_self _ _ _ _ (by rw [resetSlots_length_state]; exact hlen)
      · have : i < n := by omega
        simp only [BufferRing.resetSlots]
        rw [getD_set_ne _ _ _ _ _ (by omega)]
        exact ih this

/-- Concrete two-slot ring used to refute the idempotent-polling reading of
`getNextReadyBuffer`: slot 0 is `Ready`, slot 1 is `Empty`, read cursor at 0. -/
def ringC3 : BufferRing :=
  { mBuffers := [[0], [0]]
    mState := [BufferState.Ready, BufferState.Empty]
    mBufferSize := 1
    mReadIndex := 0
    mWriteIndex := 0 }

/-- The ring `ringC3` after one successful `getNextReadyBuffer` call. -/
def ringC3after : BufferRing :=
  { ringC3 with mReadIndex := 1 }

/-- C3 counterexample: on a ring whose read-cursor slot is `Ready`, the first
`getNextReadyBuffer` call returns slot 0 and advances the read cursor from 0
to 1 without any `releaseBuffer`; the immediately following
`getNextReadyBuffer` call returns null instead of the same buffer, so the
claimed cursor stability and idempotent repeated polling both fail. -/
theorem getNextReadyBuffer_cex :
    Relay.BufferRing.getNextReadyBuffer ringC3 = some (0, ringC3after) ∧
    Relay.BufferRing.getNextReadyBuffer ringC3after = none ∧
    ringC3after.mReadIndex = ringC3.mReadIndex + 1 := by
  decide

/-- C3 (amended): `getNextReadyBuffer` returns the buffer at the read cursor
only if that buffer's state is `Ready` (null otherwise), but on success it
advances the read cursor by one immediately; `releaseBuffer` never touches
either cursor (it only marks the given buffer `Empty` by identity lookup);
consequently two consecutive `getNextReadyBuffer` calls examine consecutive
ring positions rather than returning the same buffer. -/
theorem getNextReadyBuffer_spec (r : BufferRing) :
    (∀ i r', r.getNextReadyBuffer = some (i, r') →
      i = r.mReadIndex % r.mState.length ∧
      r.mState.getD i BufferState.Empty = BufferState.Ready ∧
      r'.mReadIndex = r.mReadIndex + 1 ∧
      r'.mState = r.mState ∧ r'.mBuffers = r.mBuffers) ∧
    (r.mState.getD (r.mReadIndex % r.mState.length) BufferState.Empty ≠ BufferState.Ready →
      r.getNextReadyBuffer = none) ∧
    (∀ b, (r.releaseBuffer b).mReadIndex = r.mReadIndex ∧
      (r.releaseBuffer b).mWriteIndex = r.mWriteIndex) := by
  refine ⟨?_, ?_, ?_⟩
  · intro i r' h
    simp only [BufferRing.getNextReadyBuffer] at h
    split at h
    · rename_i hready
      simp only [Option.some.injEq, Prod.mk.injEq] at h
      obtain ⟨hi, hr⟩ := h
      subst hi
      subst hr
      exact ⟨rfl, hready, rfl, rfl, rfl⟩
    · exact absurd h (by simp)
  · intro h
    simp only [BufferRing.getNextReadyBuffer]
    rw [if_neg h]
  · intro b
    unfold BufferRing.releaseBuffer BufferRing.updateState
    split <;> exact ⟨rfl, rfl⟩

/-- Witness for the amended C3 theorem at the concrete ring `ringC3`. -/
theorem getNextReadyBuffer_spec_witness :
    (0 : Nat) = ringC3.mReadIndex % ringC3.mState.length ∧
    ringC3.mState.getD 0 BufferState.Empty = BufferState.Ready ∧
    ringC3after.mReadIndex = ringC3.mReadIndex + 1 ∧
    ringC3after.mState = ringC3.mState ∧ ringC3after.mBuffers = ringC3.mBuffers :=
  (getNextReadyBuffer_spec ringC3).1 0 ringC3after (by decide)

/-- Scenario ring for C4: capacity 2, negotiated size 1024, both slots
`Empty`, write cursor at an arbitrary `w` (it is never initialised by the
constructor). -/
def ringCap2 (w : Nat) : BufferRing :=
  { mBuffers := [List.replicate 1024 0, List.replicate 1024 0]
    mState := [BufferState.Empty, BufferState.Empty]
    mBufferSize := 1024
    mReadIndex := 0
    mWriteIndex := w }

set_option maxRecDepth 10000 in
/-- C4: `getNextEmptyBuffer(requestedSize)` returns null when the request
differs from the negotiated size, and when the slot at the write cursor is not
`Empty`; on success it hands out the slot at the write cursor, marks it
`Allocated` and advances the write cursor by one.  On the capacity-2 ring with
negotiated size 1024, two successive `getNextEmptyBuffer(1024)` calls return
two distinct buffers and a third call returns null. -/
theorem getNextEmptyBuffer_spec :
    (∀ (r : BufferRing) (requestedSize : Nat), r.mBufferSize ≠ requestedSize →
      r.getNextEmptyBuffer requestedSize = none) ∧
    (∀ (r : BufferRing) (requestedSize : Nat),
      r.mState.getD (r.mWriteIndex % r.mState.length) BufferState.Empty ≠ BufferState.Empty →
      r.getNextEmptyBuffer requestedSize = none) ∧
    (∀ (r : BufferRing) (i : Nat) (r' : BufferRing), 0 < r.mState.length →
      r.getNextEmptyBuffer r.mBufferSize = some (i, r') →
      i = r.mWriteIndex % r.mState.length ∧
      r'.mState.getD i BufferState.Empty = BufferState.Allocated ∧
      r'.mWriteIndex = r.mWriteIndex + 1) ∧
    (∀ w : Nat, ∃ i1 r1 i2 r2,
      (ringCap2 w).getNextEmptyBuffer 1024 = some (i1, r1) ∧
      BufferRing.getNextEmptyBuffer r1 1024 = some (i2, r2) ∧
      i1 ≠ i2 ∧
      BufferRing.getNextEmptyBuffer r2 1024 = none) := by
  refine ⟨?_, ?_, ?_, ?_⟩
  · intro r req h
    simp only [BufferRing.getNextEmptyBuffer]
    rw [if_pos h]
  · intro r req h
    rw [List.getD_eq_getElem?_getD] at h
    simp [BufferRing.getNextEmptyBuffer, h]
  · intro r i r' hpos h
    simp only [BufferRing.getNextEmptyBuffer] at h
    split at h
    · exact absurd h (by simp)
    · split at h
      · rename_i hempty
        simp only [Option.some.injEq, Prod.mk.injEq] at h
        obtain ⟨hi, hr⟩ := h
        subst hi
        subst hr
        refine ⟨rfl, ?_, rfl⟩
        exact getD_set_self _ _ _ _ (Nat.mod_lt _ hpos)
      · exact absurd h (by simp)
  · intro w
    rcases Nat.mod_two_eq_zero_or_one w with h | h
    · have h1 : (w + 1) % 2 = 1 := by omega
      refine ⟨0, ⟨[List.replicate 1024 0, List.replicate 1024 0],
        [BufferState.Allocated, BufferState.Empty], 1024, 0, w + 1⟩, 1,
        ⟨[List.replicate 1024 0, List.replicate 1024 0],
        [BufferState.Allocated, BufferState.Allocated], 1024, 0, w + 2⟩, ?_, ?_, by decide, ?_⟩
      · simp [BufferRing.getNextEmptyBuffer, ringCap2, BufferRing.updateState, h]
      · simp [BufferRing.getNextEmptyBuffer, BufferRing.updateState, h1]
      · simp [BufferRing.getNextEmptyBuffer, Nat.add_mod_right w 2, h]
    · have h1 : (w + 1) % 2 = 0 := by omega
      refine ⟨1, ⟨[List.replicate 1024 0, List.replicate 1024 0],
        [BufferState.Empty, BufferState.Allocated], 1024, 0, w + 1⟩, 0,
        ⟨[List.replicate 1024 0, List.replicate 1024 0],
        [BufferState.Allocated, BufferState.Allocated], 1024, 0, w + 2⟩, ?_, ?_, by decide, ?_⟩
      · simp [BufferRing.getNextEmptyBuffer, ringCap2, BufferRing.updateState, h]
      · simp [BufferRing.getNextEmptyBuffer, BufferRing.updateState, h1]
      · simp [BufferRing.getNextEmptyBuffer, Nat.add_mod_right w 2, h]

/-- Witness for C4 at a concrete ring: the size-mismatch branch at the ring
`ringCap2 0` with request 512. -/
theorem getNextEmptyBuffer_spec_witness :
    (ringCap2 0).getNextEmptyBuffer 512 = none :=
  getNextEmptyBuffer_spec.1 (ringCap2 0) 512 (by decide)

/-- C5: after `reset(newSize)` the negotiated buffer size equals `newSize`
and every slot's state is `Empty`, whatever mixture of states the slots held
before; the operation runs with the state, write and read mutexes all
acquired (`resetLocksAcquired`). -/
theorem reset_spec (r : BufferRing) (newSize : Nat)
    (hlen : r.mState.length = r.mBuffers.length) :
    (r.reset newSize).mBufferSize = newSize ∧
    (∀ i, i < (r.reset newSize).mState.length →
      (r.reset newSize).mState.getD i BufferState.Empty = BufferState.Empty) ∧
    resetLocksAcquired = [RingLock.state, RingLock.write, RingLock.read] := by
  refine ⟨?_, ?_, rfl⟩
  · unfold BufferRing.reset
    rw [resetSlots_size]
  · intro i hi
    unfold BufferRing.reset at hi ⊢
    rw [resetSlots_length_state] at hi
    exact resetSlots_state_getD _ _ _ _ (by simp at hi; omega) (by simpa using hi)

/-- Witness for C5 at a concrete three-slot ring holding a mixture of
`Ready`, `Allocated` and `Empty` states before the reset. -/
theorem reset_spec_witness :
    (BufferRing.reset ⟨[[1], [2], [3]],
      [BufferState.Ready, BufferState.Allocated, BufferState.Empty], 1, 5, 9⟩ 7).mBufferSize = 7 ∧
    (∀ i, i < (BufferRing.reset ⟨[[1], [2], [3]],
      [BufferState.Ready, BufferState.Allocated, BufferState.Empty], 1, 5, 9⟩ 7).mState.length →
      (BufferRing.reset ⟨[[1], [2], [3]],
        [BufferState.Ready, BufferState.Allocated, BufferState.Empty], 1, 5, 9⟩ 7).mState.getD i
        BufferState.Empty = BufferState.Empty) ∧
    resetLocksAcquired = [RingLock.state, RingLock.write, RingLock.read] :=
  reset_spec ⟨[[1], [2], [3]],
    [BufferState.Ready, BufferState.Allocated, BufferState.Empty], 1, 5, 9⟩ 7 (by decide)

/-- C10: `reset` leaves both cursors untouched, so the first
`getNextEmptyBuffer` after a reset hands out the slot at the pre-reset write
cursor modulo capacity (not necessarily slot 0), and the first
`getNextReadyBuffer` examines the pre-reset read cursor, finding the slot
freshly `Empty` (hence null). -/
theorem reset_preserves_cursors (r : BufferRing) (newSize : Nat)
    (hlen : r.mState.length = r.mBuffers.length) (hpos : 0 < r.mBuffers.length) :
    (r.reset newSize).mReadIndex = r.mReadIndex ∧
    (r.reset newSize).mWriteIndex = r.mWriteIndex ∧
    ((r.reset newSize).getNextEmptyBuffer newSize).map Prod.fst =
      some (r.mWriteIndex % r.mBuffers.length) ∧
    (r.reset newSize).getNextReadyBuffer = none := by
  have hsize : (r.reset newSize).mBufferSize = newSize := by
    unfold BufferRing.reset
    rw [resetSlots_size]
  have hstlen : (r.reset newSize).mState.length = r.mBuffers.length := by
    unfold BufferRing.reset
    rw [resetSlots_length_state]
    simpa using hlen
  have hread : (r.reset newSize).mReadIndex = r.mReadIndex := by
    unfold BufferRing.reset
    rw [resetSlots_read]
  have hwrite : (r.reset newSize).mWriteIndex = r.mWriteIndex := by
    unfold BufferRing.reset
    rw [resetSlots_write]
  have hempty : ∀ i, i < r.mBuffers.length →
      (r.reset newSize).mState[i]?.getD BufferState.Empty = BufferState.Empty := by
    intro i hi
    rw [← List.getD_eq_getElem?_getD]
    unfold BufferRing.reset
    exact resetSlots_state_getD _ _ _ _ hi (by simp; omega)
  refine ⟨hread, hwrite, ?_, ?_⟩
  · simp only [BufferRing.getNextEmptyBuffer, hsize, hstlen, hwrite,
      List.getD_eq_getElem?_getD]
    simp [hempty _ (Nat.mod_lt _ hpos)]
  · simp only [BufferRing.getNextReadyBuffer, hstlen, hread,
      List.getD_eq_getElem?_getD]
    simp [hempty _ (Nat.mod_lt _ hpos)]

/-- Witness for C10 at a concrete ring whose cursors sit at 4 and 7 before a
reset to size 9: the post-reset empty-buffer call hands out slot 7 % 3 = 1. -/
theorem reset_preserves_cursors_witness :
    (BufferRing.reset ⟨[[1], [2], [3]],
      [BufferState.Ready, BufferState.Allocated, BufferState.Ready], 1, 4, 7⟩ 9).mReadIndex = 4 ∧
    (BufferRing.reset ⟨[[1], [2], [3]],
      [BufferState.Ready, BufferState.Allocated, BufferState.Ready], 1, 4, 7⟩ 9).mWriteIndex = 7 ∧
    ((BufferRing.reset ⟨[[1], [2], [3]],
      [BufferState.Ready, BufferState.Allocated, BufferState.Ready], 1, 4, 7⟩ 9).getNextEmptyBuffer 9).map
      Prod.fst = some (7 % 3) ∧
    (BufferRing.reset ⟨[[1], [2], [3]],
      [BufferState.Ready, BufferState.Allocated, BufferState.Ready], 1, 4, 7⟩ 9).getNextReadyBuffer = none :=
  reset_preserves_cursors ⟨[[1], [2], [3]],
    [BufferState.Ready, BufferState.Allocated, BufferState.Ready], 1, 4, 7⟩ 9 (by decide) (by decide)

end Relay

namespace TSR

/-- BufferState used by the shared-buffer transfer engine (`TSROps` /
`DX12Ops`): the fence's completed value encodes readiness. -/
inductive BufferState where
  | IDLE
  | READY
deriving DecidableEq, Repr

/-- Numeric value of a `BufferState` (the `static_cast<UINT64>` used when
creating, comparing and signalling the fence): `IDLE = 0`, `READY = 1`. -/
def BufferState.val : BufferState → Nat
  | .IDLE => 0
  | .READY => 1

/-- One transferred GPU surface (`TSRGraphicsResource`): its descriptor
dimensions, per-pixel stride, and current contents as packed bytes (the
`Width x Height` region at row pitch `Width * stride`). -/
structure TSRGraphicsResource where
  width : Nat
  height : Nat
  stride : Nat
  data : List Nat
deriving DecidableEq, Repr

/-- Byte size of one surface as accumulated by the source loops:
`desc.Width * desc.Height * stride`. -/
def resourceSize (r : TSRGraphicsResource) : Nat :=
  r.width * r.height * r.stride

/-- `TSROps::CalculateTotalSize`: `totalSize += Width * Height * stride` over
the list, starting from 0. -/
def CalculateTotalSize (pResources : List TSRGraphicsResource) : Nat :=
  pResources.foldl (fun totalSize r => totalSize + resourceSize r) 0

/-- One ring slot: the shared fence's completed value and the shared
buffer's bytes. -/
structure TSRSlot where
  fence : Nat
  bytes : List Nat
deriving DecidableEq, Repr

/-- The `TSROps` object: slot count and the `p_SharedBuffer` array of
(resource, fence) pairs. -/
structure TSROps where
  m_BufferCount : Nat
  p_SharedBuffer : List TSRSlot
deriving DecidableEq, Repr

/-- Fence completed value of slot `i` (`GetCompletedValue()` on
`std::get<1>(p_SharedBuffer[i])`). -/
def TSROps.fenceValue (ops : TSROps) (i : Nat) : Nat :=
  (ops.p_SharedBuffer.getD i ⟨0, []⟩).fence

/-- `TSROps::bufferStateMatches`: fatal assert that the index is in range
(modelled as `none`), then compare the fence's completed value with the
state's numeric value. -/
def TSROps.bufferStateMatches (ops : TSROps) (bufferIndex : Nat) (state : BufferState) :
    Option Bool :=
  if bufferIndex < ops.m_BufferCount then
    some (ops.fenceValue bufferIndex == state.val)
  else
    none

/-- `TSROps::bufferStateMatchesAll`:  conjunction of `bufferStateMatches`
over all slots (fatal asserts cannot fire since `i < m_BufferCount`). -/
def TSROps.bufferStateMatchesAll (ops : TSROps) (state : BufferState) : Bool :=
  (List.range ops.m_BufferCount).all fun i => (ops.bufferStateMatches i state).getD false

/-- `TSROps::CreateSharedBuffers` on the producer side (`shouldCreate` true):
every slot gets a fresh shared buffer of `CalculateTotalSize` bytes and a
fresh shared fence initialised to `IDLE`. -/
def TSROps.CreateSharedBuffers (count : Nat) (pResources : List TSRGraphicsResource) : TSROps :=
  { m_BufferCount := count
    p_SharedBuffer := List.replicate count
      { fence := BufferState.IDLE.val
        bytes := List.replicate (CalculateTotalSize pResources) 0 } }

/-- Overwrite `data.length` bytes of `buf` starting at `off` (the
`CopyTextureRegion` into the placed footprint at `Offset = off`). -/
def writeBytes (buf : List Nat) (off : Nat) (data : List Nat) : List Nat :=
  buf.take off ++ data ++ buf.drop (off + data.length)

/-- Read `n` bytes of `buf` starting at `off` (the `CopyTextureRegion` out of
the placed footprint at `Offset = off`). -/
def readBytes (buf : List Nat) (off n : Nat) : List Nat :=
  (buf.drop off).take n

/-- The `PerformTransfer` surface loop in the `toSharedBuffer` direction:
copy each surface into the shared buffer at the running offset, then
`offset += size`. -/
def copyToShared : List TSRGraphicsResource → Nat → List Nat → List Nat
  | [], _, buf => buf
  | r :: rs, offset, buf => copyToShared rs (offset + resourceSize r) (writeBytes buf offset r.data)

/-- The `PerformTransfer` surface loop in the from-shared direction: each
surface's contents are replaced by the bytes at its running offset, then
`offset += size`. -/
def copyFromShared : List TSRGraphicsResource → Nat → List Nat → List TSRGraphicsResource
  | [], _, _ => []
  | r :: rs, offset, buf =>
      { r with data := readBytes buf offset (resourceSize r) } ::
        copyFromShared rs (offset + resourceSize r) buf

/-- The (offset, size) pairs at which the `PerformTransfer` loop touches the
shared buffer, in surface order, starting from the given running offset. -/
def transferRegions : List TSRGraphicsResource → Nat → List (Nat × Nat)
  | [], _ => []
  | r :: rs, offset => (offset, resourceSize r) :: transferRegions rs (offset + resourceSize r)

/-- `TSROps::PerformTransfer`: fatal assert on the index bound and on the
fence's completed value (`IDLE` expected towards the shared buffer, `READY`
from it) are modelled as `none`; then the surface loop runs from offset 0,
and the fence is signalled to the opposite state.  Returns the updated ring
and the surface list (updated only in the from-shared direction). -/
def TSROps.PerformTransfer (ops : TSROps) (pResources : List TSRGraphicsResource)
    (bufferIndex : Nat) (toSharedBuffer : Bool) :
    Option (TSROps × List TSRGraphicsResource) :=
  if bufferIndex < ops.m_BufferCount then
    let slot := ops.p_SharedBuffer.getD bufferIndex ⟨0, []⟩
    let desiredState := if toSharedBuffer then BufferState.IDLE.val else BufferState.READY.val
    if slot.fence = desiredState then
      if toSharedBuffer then
        some ({ ops with p_SharedBuffer :=
          ops.p_SharedBuffer.set bufferIndex ⟨BufferState.READY.val, copyToShared pResources 0 slot.bytes⟩ },
          pResources)
      else
        some ({ ops with p_SharedBuffer :=
          ops.p_SharedBuffer.set bufferIndex ⟨BufferState.IDLE.val, slot.bytes⟩ },
          copyFromShared pResources 0 slot.bytes)
    else
      none
  else
    none

/-- `TSROps::TransferToSharedBuffer` (transferOut). -/
def TSROps.TransferToSharedBuffer (ops : TSROps) (pResources : List TSRGraphicsResource)
    (bufferIndex : Nat) : Option (TSROps × List TSRGraphicsResource) :=
  ops.PerformTransfer pResources bufferIndex true

/-- `TSROps::TransferFromSharedBuffer` (transferIn). -/
def TSROps.TransferFromSharedBuffer (ops : TSROps) (pResources : List TSRGraphicsResource)
    (bufferIndex : Nat) : Option (TSROps × List TSRGraphicsResource) :=
  ops.PerformTransfer pResources bufferIndex false

end TSR

namespace TSR

theorem transferTo_eq (ops : TSROps) (rs : List TSRGraphicsResource) (i : Nat)
    (hi : i < ops.m_BufferCount) :
    ops.TransferToSharedBuffer rs i =
      if (ops.p_SharedBuffer.getD i ⟨0, []⟩).fence = BufferState.IDLE.val then
        some ({ ops with p_SharedBuffer := (ops.p_SharedBuffer.set i
          ⟨BufferState.READY.val, copyToShared rs 0 (ops.p_SharedBuffer.getD i ⟨0, []⟩).bytes⟩) }, rs)
      else none := by
  unfold TSROps.TransferToSharedBuffer TSROps.PerformTransfer
  rw [if_pos hi]
  rfl

theorem transferFrom_eq (ops : TSROps) (rs : List TSRGraphicsResource) (i : Nat)
    (hi : i < ops.m_BufferCount) :
    ops.TransferFromSharedBuffer rs i =
      if (ops.p_SharedBuffer.getD i ⟨0, []⟩).fence = BufferState.READY.val then
        some ({ ops with p_SharedBuffer := (ops.p_SharedBuffer.set i
          ⟨BufferState.IDLE.val, (ops.p_SharedBuffer.getD i ⟨0, []⟩).bytes⟩) },
          copyFromShared rs 0 (ops.p_SharedBuffer.getD i ⟨0, []⟩).bytes)
      else none := by
  unfold TSROps.TransferFromSharedBuffer TSROps.PerformTransfer
  rw [if_pos hi]
  rfl

end TSR

namespace TSR

/-- C1: for every slot index below the ring's buffer count, transferOut
(`TransferToSharedBuffer`) hits the fatal state assertion (modelled `none`)
unless the slot's fence equals `IDLE`, and on success signals the fence to
`READY`; transferIn (`TransferFromSharedBuffer`) symmetrically requires
`READY` (fatal otherwise) and signals `IDLE`; hence after one transferOut
and one transferIn on slot `i`, a second transferIn on slot `i` before the
next transferOut fails the fatal precondition. -/
theorem PerformTransfer_protocol (ops : TSROps) (rs : List TSRGraphicsResource) (i : Nat)
    (hlen : ops.p_SharedBuffer.length = ops.m_BufferCount) (hi : i < ops.m_BufferCount) :
    (ops.fenceValue i ≠ BufferState.IDLE.val → ops.TransferToSharedBuffer rs i = none) ∧
    (∀ out, ops.TransferToSharedBuffer rs i = some out →
      out.1.fenceValue i = BufferState.READY.val) ∧
    (ops.fenceValue i ≠ BufferState.READY.val → ops.TransferFromSharedBuffer rs i = none) ∧
    (∀ out, ops.TransferFromSharedBuffer rs i = some out →
      out.1.fenceValue i = BufferState.IDLE.val) ∧
    (∀ out1 out2, ops.TransferToSharedBuffer rs i = some out1 →
      TSROps.TransferFromSharedBuffer out1.1 out1.2 i = some out2 →
      TSROps.TransferFromSharedBuffer out2.1 out2.2 i = none) := by
  have hilen : i < ops.p_SharedBuffer.length := by omega
  refine ⟨?_, ?_, ?_, ?_, ?_⟩
  · intro h
    simp only [TSROps.fenceValue] at h
    rw [transferTo_eq ops rs i hi, if_neg h]
  · intro out h
    rw [transferTo_eq ops rs i hi] at h
    split at h
    · cases h
      simp only [TSROps.fenceValue]
      rw [getD_set_self _ _ _ _ hilen]
    · cases h
  · intro h
    simp only [TSROps.fenceValue] at h
    rw [transferFrom_eq ops rs i hi, if_neg h]
  · intro out h
    rw [transferFrom_eq ops rs i hi] at h
    split at h
    · cases h
      simp only [TSROps.fenceValue]
      rw [getD_set_self _ _ _ _ hilen]
    · cases h
  · intro out1 out2 h1 h2
    rw [transferTo_eq ops rs i hi] at h1
    split at h1
    · cases h1
      have hcount1 : i < TSROps.m_BufferCount
          { ops with p_SharedBuffer := (ops.p_SharedBuffer.set i
            ⟨BufferState.READY.val, copyToShared rs 0 (ops.p_SharedBuffer.getD i ⟨0, []⟩).bytes⟩) } := hi
      rw [transferFrom_eq _ _ i hcount1] at h2
      split at h2
      · cases h2
        refine Eq.trans (transferFrom_eq _ _ i ?_) ?_
        · exact hi
        · split
          · rename_i hc
            rw [getD_set_self _ _ _ _ (by simpa using hilen)] at hc
            simp [BufferState.val] at hc
          · rfl
      · cases h2
    · cases h1

end TSR

namespace TSR

/-- Producer-side ring of 3 slots sized for one 64x64 RGBA color surface. -/
def opsC1 : TSROps := TSROps.CreateSharedBuffers 3 [⟨64, 64, 4, List.replicate 16384 7⟩]

/-- The one-surface list of the C1 scenario: color, 64x64, 4 bytes/pixel. -/
def rsC1 : List TSRGraphicsResource := [⟨64, 64, 4, List.replicate 16384 7⟩]

/-- Witness for C1 at the 3-slot producer ring and slot 0. -/
theorem PerformTransfer_protocol_witness :
    (opsC1.fenceValue 0 ≠ BufferState.IDLE.val → opsC1.TransferToSharedBuffer rsC1 0 = none) ∧
    (∀ out, opsC1.TransferToSharedBuffer rsC1 0 = some out →
      out.1.fenceValue 0 = BufferState.READY.val) ∧
    (opsC1.fenceValue 0 ≠ BufferState.READY.val → opsC1.TransferFromSharedBuffer rsC1 0 = none) ∧
    (∀ out, opsC1.TransferFromSharedBuffer rsC1 0 = some out →
      out.1.fenceValue 0 = BufferState.IDLE.val) ∧
    (∀ out1 out2, opsC1.TransferToSharedBuffer rsC1 0 = some out1 →
      TSROps.TransferFromSharedBuffer out1.1 out1.2 0 = some out2 →
      TSROps.TransferFromSharedBuffer out2.1 out2.2 0 = none) :=
  PerformTransfer_protocol opsC1 rsC1 0 rfl (by decide)

/-- Sum of the byte sizes of a surface list. -/
def sumSizes (rs : List TSRGraphicsResource) : Nat :=
  (rs.map resourceSize).sum

theorem foldl_add_size (rs : List TSRGraphicsResource) (a : Nat) :
    rs.foldl (fun totalSize r => totalSize + resourceSize r) a = a + sumSizes rs := by
  induction rs generalizing a with
  | nil => simp [sumSizes]
  | cons r rs ih => simp [sumSizes, ih, List.foldl_cons]; ring

theorem CalculateTotalSize_eq_sumSizes (rs : List TSRGraphicsResource) :
    CalculateTotalSize rs = sumSizes rs := by
  unfold CalculateTotalSize
  rw [foldl_add_size]
  omega

theorem length_writeBytes (buf data : List Nat) (off : Nat)
    (h : off + data.length ≤ buf.length) :
    (writeBytes buf off data).length = buf.length := by
  unfold writeBytes
  rw [List.length_append, List.length_append, List.length_take, List.length_drop,
    min_eq_left (show off ≤ buf.length by omega)]
  omega

theorem take_writeBytes (buf data : List Nat) (off o : Nat)
    (ho : o ≤ off) (hb : off ≤ buf.length) :
    (writeBytes buf off data).take o = buf.take o := by
  unfold writeBytes
  rw [List.append_assoc, List.take_append_eq_append_take, List.take_take,
    min_eq_left ho, List.length_take, min_eq_left hb,
    Nat.sub_eq_zero_of_le ho, List.take_zero, List.append_nil]

theorem readBytes_writeBytes (buf data : List Nat) (off : Nat)
    (h : off + data.length ≤ buf.length) :
    readBytes (writeBytes buf off data) off data.length = data := by
  unfold readBytes writeBytes
  rw [List.append_assoc, List.drop_append_eq_append_drop,
    List.drop_eq_nil_of_le (by rw [List.length_take]; exact min_le_left _ _),
    List.length_take, min_eq_left (by omega), Nat.sub_self, List.drop_zero,
    List.nil_append, List.take_append_eq_append_take, List.take_length,
    Nat.sub_self, List.take_zero, List.append_nil]

theorem length_copyToShared (rs : List TSRGraphicsResource) (off : Nat) (buf : List Nat)
    (hdata : ∀ r ∈ rs, r.data.length = resourceSize r)
    (hcap : off + sumSizes rs ≤ buf.length) :
    (copyToShared rs off buf).length = buf.length := by
  induction rs generalizing off buf with
  | nil => rfl
  | cons r rs ih =>
      have hr : r.data.length = resourceSize r := hdata r (by simp)
      have hsum : sumSizes (r :: rs) = resourceSize r + sumSizes rs := by
        simp [sumSizes]
      have hw : (writeBytes buf off r.data).length = buf.length :=
        length_writeBytes _ _ _ (by omega)
      simp only [copyToShared]
      rw [ih _ _ (fun x hx => hdata x (by simp [hx])) (by rw [hw]; omega)]
      exact hw

theorem take_copyToShared (rs : List TSRGraphicsResource) (off o : Nat) (buf : List Nat)
    (hdata : ∀ r ∈ rs, r.data.length = resourceSize r)
    (ho : o ≤ off) (hcap : off + sumSizes rs ≤ buf.length) :
    (copyToShared rs off buf).take o = buf.take o := by
  induction rs generalizing off buf with
  | nil => rfl
  | cons r rs ih =>
      have hr : r.data.length = resourceSize r := hdata r (by simp)
      have hsum : sumSizes (r :: rs) = resourceSize r + sumSizes rs := by
        simp [sumSizes]
      have hw : (writeBytes buf off r.data).length = buf.length :=
        length_writeBytes _ _ _ (by omega)
      simp only [copyToShared]
      rw [ih _ _ (fun x hx => hdata x (by simp [hx])) (by omega) (by rw [hw]; omega)]
      exact take_writeBytes _ _ _ _ ho (by omega)

theorem copyFromShared_copyToShared (rs : List TSRGraphicsResource) (off : Nat)
    (buf : List Nat)
    (hdata : ∀ r ∈ rs, r.data.length = resourceSize r)
    (hcap : off + sumSizes rs ≤ buf.length) :
    copyFromShared rs off (copyToShared rs off buf) = rs := by
  induction rs generalizing off buf with
  | nil => rfl
  | cons r rs ih =>
      have hr : r.data.length = resourceSize r := hdata r (by simp)
      have hsum : sumSizes (r :: rs) = resourceSize r + sumSizes rs := by
        simp [sumSizes]
      have hw : (writeBytes buf off r.data).length = buf.length :=
        length_writeBytes _ _ _ (by omega)
      simp only [copyToShared, copyFromShared]
      have hhead : readBytes (copyToShared rs (off + resourceSize r) (writeBytes buf off r.data))
          off (resourceSize r) = r.data := by
        have htk : (copyToShared rs (off + resourceSize r) (writeBytes buf off r.data)).take
            (off + resourceSize r) = (writeBytes buf off r.data).take (off + resourceSize r) :=
          take_copyToShared rs (off + resourceSize r) (off + resourceSize r) _
            (fun x hx => hdata x (by simp [hx])) (le_refl _) (by rw [hw]; omega)
        have hread : ∀ B C : List Nat, B.take (off + resourceSize r) = C.take (off + resourceSize r) →
            readBytes B off (resourceSize r) = readBytes C off (resourceSize r) := by
          intro B C hBC
          unfold readBytes
          rw [List.take_drop, List.take_drop, hBC]
        rw [hread _ _ htk, ← hr, readBytes_writeBytes _ _ _ (by omega)]
      rw [hhead]
      have htail : copyFromShared rs (off + resourceSize r)
          (copyToShared rs (off + resourceSize r) (writeBytes buf off r.data)) = rs :=
        ih _ _ (fun x hx => hdata x (by simp [hx])) (by rw [hw]; omega)
      rw [htail]

end TSR

namespace TSR

theorem transferRegions_getD (rs : List TSRGraphicsResource) (off k : Nat)
    (hk : k < rs.length) :
    (transferRegions rs off).getD k (0, 0) =
      (off + sumSizes (rs.take k), resourceSize (rs.getD k ⟨0, 0, 0, []⟩)) := by
  induction rs generalizing off k with
  | nil => simp at hk
  | cons r rs ih =>
      cases k with
      | zero => simp [transferRegions, sumSizes]
      | succ k =>
          have hk' : k < rs.length := by simpa using hk
          simp only [transferRegions, List.getD_cons_succ, List.take_succ_cons,
            List.getD_cons_succ]
          rw [ih (off + resourceSize r) k hk']
          have : sumSizes (r :: rs.take k) = resourceSize r + sumSizes (rs.take k) := by
            simp [sumSizes]
          rw [this]
          refine congrArg (fun x => (x, _)) ?_
          omega

theorem transferRegions_sizes_sum (rs : List TSRGraphicsResource) (off : Nat) :
    ((transferRegions rs off).map Prod.snd).sum = sumSizes rs := by
  induction rs generalizing off with
  | nil => rfl
  | cons r rs ih => simp [transferRegions, sumSizes, ih]

theorem sumSizes_take_succ (rs : List TSRGraphicsResource) (k : Nat) (hk : k < rs.length) :
    sumSizes (rs.take (k + 1)) = sumSizes (rs.take k) + resourceSize (rs.getD k ⟨0, 0, 0, []⟩) := by
  induction rs generalizing k with
  | nil => simp at hk
  | cons r rs ih =>
      cases k with
      | zero => simp [sumSizes]
      | succ k =>
          have hk' : k < rs.length := by simpa using hk
          simp only [List.take_succ_cons, List.getD_cons_succ]
          have h1 : sumSizes (r :: rs.take (k + 1)) = resourceSize r + sumSizes (rs.take (k + 1)) := by
            simp [sumSizes]
          have h2 : sumSizes (r :: rs.take k) = resourceSize r + sumSizes (rs.take k) := by
            simp [sumSizes]
          rw [h1, h2, ih k hk']
          omega

theorem sumSizes_take_mono (rs : List TSRGraphicsResource) (k l : Nat) (h : k ≤ l) :
    sumSizes (rs.take k) ≤ sumSizes (rs.take l) := by
  induction rs generalizing k l with
  | nil => simp
  | cons r rs ih =>
      cases k with
      | zero =>
          simp only [List.take_zero]
          exact Nat.zero_le _
      | succ k =>
          cases l with
          | zero => omega
          | succ l =>
              simp only [List.take_succ_cons]
              have h1 : sumSizes (r :: rs.take k) = resourceSize r + sumSizes (rs.take k) := by
                simp [sumSizes]
              have h2 : sumSizes (r :: rs.take l) = resourceSize r + sumSizes (rs.take l) := by
                simp [sumSizes]
              rw [h1, h2]
              have := ih k l (by omega)
              omega

/-- C2: for a fixed surface list and any in-range slot whose fence is `IDLE`
and whose shared buffer holds exactly `CalculateTotalSize` bytes, transferOut
followed immediately by transferIn on that slot returns every surface with
its original bytes (round-trip fidelity); the transfer loop touches surface
`k` at offset `sum of width*height*stride over surfaces before k`, those
regions are pairwise disjoint, and their sizes sum to exactly
`CalculateTotalSize`. -/
theorem PerformTransfer_roundtrip (ops : TSROps) (rs : List TSRGraphicsResource) (i : Nat)
    (hlen : ops.p_SharedBuffer.length = ops.m_BufferCount)
    (hi : i < ops.m_BufferCount)
    (hfence : ops.fenceValue i = BufferState.IDLE.val)
    (hsize : (ops.p_SharedBuffer.getD i ⟨0, []⟩).bytes.length = CalculateTotalSize rs)
    (hdata : ∀ r ∈ rs, r.data.length = resourceSize r) :
    (∃ out1 out2, ops.TransferToSharedBuffer rs i = some out1 ∧
      TSROps.TransferFromSharedBuffer out1.1 rs i = some out2 ∧ out2.2 = rs) ∧
    (∀ k, k < rs.length → (transferRegions rs 0).getD k (0, 0) =
      (sumSizes (rs.take k), resourceSize (rs.getD k ⟨0, 0, 0, []⟩))) ∧
    (∀ k l, k < l → l < rs.length →
      ((transferRegions rs 0).getD k (0, 0)).1 + ((transferRegions rs 0).getD k (0, 0)).2 ≤
        ((transferRegions rs 0).getD l (0, 0)).1) ∧
    ((transferRegions rs 0).map Prod.snd).sum = CalculateTotalSize rs := by
  have hilen : i < ops.p_SharedBuffer.length := by omega
  have hfence' : (ops.p_SharedBuffer.getD i ⟨0, []⟩).fence = BufferState.IDLE.val := hfence
  have hcap : 0 + sumSizes rs ≤ (ops.p_SharedBuffer.getD i ⟨0, []⟩).bytes.length := by
    rw [hsize, CalculateTotalSize_eq_sumSizes]
    omega
  refine ⟨?_, ?_, ?_, ?_⟩
  · have h1 : ops.TransferToSharedBuffer rs i =
        some ({ ops with p_SharedBuffer := (ops.p_SharedBuffer.set i
          ⟨BufferState.READY.val, copyToShared rs 0 (ops.p_SharedBuffer.getD i ⟨0, []⟩).bytes⟩) },
          rs) := by
      rw [transferTo_eq ops rs i hi, if_pos hfence']
    have hslot : (({ ops with p_SharedBuffer := (ops.p_SharedBuffer.set i
        ⟨BufferState.READY.val, copyToShared rs 0 (ops.p_SharedBuffer.getD i ⟨0, []⟩).bytes⟩) } :
          TSROps).p_SharedBuffer.getD i ⟨0, []⟩) =
        ⟨BufferState.READY.val, copyToShared rs 0 (ops.p_SharedBuffer.getD i ⟨0, []⟩).bytes⟩ :=
      getD_set_self _ _ _ _ hilen
    have h2 : TSROps.TransferFromSharedBuffer { ops with p_SharedBuffer :=
        (ops.p_SharedBuffer.set i
          ⟨BufferState.READY.val, copyToShared rs 0 (ops.p_SharedBuffer.getD i ⟨0, []⟩).bytes⟩) }
        rs i =
        some ({ ops with p_SharedBuffer := ((ops.p_SharedBuffer.set i
          ⟨BufferState.READY.val, copyToShared rs 0 (ops.p_SharedBuffer.getD i ⟨0, []⟩).bytes⟩).set i
          ⟨BufferState.IDLE.val, copyToShared rs 0 (ops.p_SharedBuffer.getD i ⟨0, []⟩).bytes⟩) },
          copyFromShared rs 0 (copyToShared rs 0 (ops.p_SharedBuffer.getD i ⟨0, []⟩).bytes)) := by
      refine Eq.trans (transferFrom_eq _ _ i ?_) ?_
      · exact hi
      · rw [hslot]
        split
        · rfl
        · rename_i hc
          exact absurd rfl hc
    refine ⟨_, _, h1, h2, ?_⟩
    exact copyFromShared_copyToShared rs 0 _ hdata hcap
  · intro k hk
    rw [transferRegions_getD rs 0 k hk, Nat.zero_add]
  · intro k l hkl hl
    have hk : k < rs.length := by omega
    rw [transferRegions_getD rs 0 k hk, transferRegions_getD rs 0 l hl]
    have hstep := sumSizes_take_succ rs k hk
    have hmono := sumSizes_take_mono rs (k + 1) l (by omega)
    simp only [Nat.zero_add]
    omega
  · rw [transferRegions_sizes_sum, CalculateTotalSize_eq_sumSizes]

/-- One-slot ring for the C2 witness: fence `IDLE`, six zero bytes. -/
def opsC2 : TSROps :=
  { m_BufferCount := 1, p_SharedBuffer := [⟨0, [0, 0, 0, 0, 0, 0]⟩] }

/-- Two surfaces for the C2 witness: 1x2 and 2x2 at stride 1 (total 6 bytes). -/
def rsC2 : List TSRGraphicsResource :=
  [⟨1, 2, 1, [5, 6]⟩, ⟨2, 2, 1, [7, 8, 9, 10]⟩]

/-- Witness for C2: the round-trip on the concrete one-slot ring. -/
theorem PerformTransfer_roundtrip_witness :
    ∃ out1 out2, opsC2.TransferToSharedBuffer rsC2 0 = some out1 ∧
      TSROps.TransferFromSharedBuffer out1.1 rsC2 0 = some out2 ∧ out2.2 = rsC2 :=
  (PerformTransfer_roundtrip opsC2 rsC2 0 rfl (by decide) rfl (by decide) (by decide)).1

end TSR

namespace TSR

theorem bufferStateMatches_fenceValue (ops : TSROps) (i : Nat) (s : BufferState)
    (hi : i < ops.m_BufferCount) :
    ops.bufferStateMatches i s = some (ops.fenceValue i == s.val) := by
  unfold TSROps.bufferStateMatches
  rw [if_pos hi]

theorem bufferStateMatches_congr (a b : TSROps) (i : Nat) (s : BufferState)
    (hc : a.m_BufferCount = b.m_BufferCount) (hf : a.fenceValue i = b.fenceValue i) :
    a.bufferStateMatches i s = b.bufferStateMatches i s := by
  unfold TSROps.bufferStateMatches
  rw [hc, hf]

/-- C6: on the producer side, `CreateSharedBuffers` initialises every slot's
fence to `IDLE`, so `bufferStateMatches(i, READY)` is false for every slot
index below the count; one transferOut on slot `i` succeeds from that state
and makes `bufferStateMatches(i, READY)` true; transferIn always leaves its
slot non-`READY` and no transfer touches any other slot's fence, so a slot
reads `READY` only after exactly one transferOut on it. -/
theorem CreateSharedBuffers_ready_protocol (count : Nat)
    (rs rs' : List TSRGraphicsResource) :
    (∀ i, i < count →
      (TSROps.CreateSharedBuffers count rs).bufferStateMatches i BufferState.READY = some false) ∧
    (∀ i, i < count → ∃ out,
      (TSROps.CreateSharedBuffers count rs).TransferToSharedBuffer rs' i = some out ∧
      out.1.bufferStateMatches i BufferState.READY = some true) ∧
    (∀ (ops : TSROps) (j : Nat) out, ops.p_SharedBuffer.length = ops.m_BufferCount →
      ops.TransferFromSharedBuffer rs' j = some out →
      out.1.bufferStateMatches j BufferState.READY = some false ∧
      (∀ i s, i ≠ j → out.1.bufferStateMatches i s = ops.bufferStateMatches i s)) ∧
    (∀ (ops : TSROps) (j : Nat) out, ops.TransferToSharedBuffer rs' j = some out →
      ∀ i s, i ≠ j → out.1.bufferStateMatches i s = ops.bufferStateMatches i s) := by
  have hrepl : ∀ i, i < count →
      (TSROps.CreateSharedBuffers count rs).p_SharedBuffer.getD i ⟨0, []⟩ =
        ⟨BufferState.IDLE.val, List.replicate (CalculateTotalSize rs) 0⟩ := by
    intro i hi
    simp only [TSROps.CreateSharedBuffers]
    exact getD_replicate _ _ _ _ hi
  refine ⟨?_, ?_, ?_, ?_⟩
  · intro i hi
    rw [bufferStateMatches_fenceValue _ _ _ hi]
    simp only [TSROps.fenceValue]
    rw [hrepl i hi]
    rfl
  · intro i hi
    refine ⟨({ TSROps.CreateSharedBuffers count rs with p_SharedBuffer :=
      ((TSROps.CreateSharedBuffers count rs).p_SharedBuffer.set i
        ⟨BufferState.READY.val, copyToShared rs' 0 (List.replicate (CalculateTotalSize rs) 0)⟩) },
      rs'), ?_, ?_⟩
    · refine Eq.trans (transferTo_eq _ rs' i ?_) ?_
      · exact hi
      · rw [hrepl i hi]
        split
        · rfl
        · rename_i hc
          exact absurd rfl hc
    · refine Eq.trans (bufferStateMatches_fenceValue _ _ _ ?_) ?_
      · exact hi
      · simp only [TSROps.fenceValue, TSROps.CreateSharedBuffers]
        rw [getD_set_self _ _ _ _ (by simpa using hi)]
        rfl
  · intro ops j out hlenops h
    have hj : j < ops.m_BufferCount := by
      by_contra hj
      unfold TSROps.TransferFromSharedBuffer TSROps.PerformTransfer at h
      rw [if_neg hj] at h
      cases h
    rw [transferFrom_eq _ _ j hj] at h
    split at h
    · cases h
      constructor
      · refine Eq.trans (bufferStateMatches_fenceValue _ _ _ ?_) ?_
        · exact hj
        · simp only [TSROps.fenceValue]
          rw [getD_set_self _ _ _ _ (by omega)]
          rfl
      · intro i s hij
        refine bufferStateMatches_congr _ _ _ _ rfl ?_
        simp only [TSROps.fenceValue]
        rw [getD_set_ne _ _ _ _ _ (by omega)]
    · cases h
  · intro ops j out h i s hij
    have hj : j < ops.m_BufferCount := by
      by_contra hj
      unfold TSROps.TransferToSharedBuffer TSROps.PerformTransfer at h
      rw [if_neg hj] at h
      cases h
    rw [transferTo_eq _ _ j hj] at h
    split at h
    · cases h
      refine bufferStateMatches_congr _ _ _ _ rfl ?_
      simp only [TSROps.fenceValue]
      rw [getD_set_ne _ _ _ _ _ (by omega)]
    · cases h

/-- Witness for C6 at a concrete two-slot producer ring. -/
theorem CreateSharedBuffers_ready_protocol_witness :
    (TSROps.CreateSharedBuffers 2 rsC2).bufferStateMatches 0 BufferState.READY = some false ∧
    (∃ out, (TSROps.CreateSharedBuffers 2 rsC2).TransferToSharedBuffer rsC2 0 = some out ∧
      out.1.bufferStateMatches 0 BufferState.READY = some true) :=
  ⟨(CreateSharedBuffers_ready_protocol 2 rsC2 rsC2).1 0 (by decide),
   (CreateSharedBuffers_ready_protocol 2 rsC2 rsC2).2.1 0 (by decide)⟩

end TSR

namespace FPSLimiter

/-- Target frame duration in QPC ticks: `qpf.QuadPart / m_TargetFPS`
(C integer division, truncating). -/
def targetFrameTicks (qpf targetFPS : Nat) : Nat := qpf / targetFPS

/-- `TimerSleepQPC(targetQPC)` spins until the performance counter reaches
`targetQPC`; modelled by the counter value at loop exit when the counter was
`now` at entry and time advances only as far as the spin requires (the
earliest legal exit, which is what a lower-bound or best-case analysis must
use). -/
def timerSleepQPC (targetQPC now : Nat) : Nat := max now targetQPC

/-- One `Execute` call in CPU limiter mode (`USE_BUSY_WAIT`), with an
instantaneous workload: `last` is the static `lastFrame`, `now` the counter
at entry; if the elapsed ticks are below the target the call spins to the
deadline; the returned value is the counter read stored back into
`lastFrame`. -/
def executeCPU (qpf targetFPS last now : Nat) : Nat :=
  if now - last < targetFrameTicks qpf targetFPS then
    timerSleepQPC (last + targetFrameTicks qpf targetFPS) now
  else now

/-- Best-case trajectory of `lastFrame` at a 60 FPS target with a 10 MHz
performance counter: each iteration re-enters immediately at the previous
recorded timestamp (instant workload) and the spin exits exactly at the
deadline. -/
def cpuTrace : Nat → Nat
  | 0 => 0
  | n + 1 => executeCPU 10000000 60 (cpuTrace n) (cpuTrace n)

set_option maxRecDepth 10000 in
/-- C7 counterexample: with a 10 MHz counter (not divisible by 60), the
busy-wait target is `lastFrame + 10000000 / 60 = lastFrame + 166666` ticks,
so 100 best-case iterations advance the recorded timestamp by exactly
16666600 ticks = 1.66666 s, which is strictly less than 100/60 s; the
claimed lower bound of 100/60 seconds fails. -/
theorem cpu_limiter_total_cex :
    cpuTrace 100 = 16666600 ∧ ((16666600 : ℚ) / 10000000 < 100 / 60) := by
  constructor
  · rfl
  · norm_num

/-- C7 (amended): every `Execute` in CPU limiter mode (spin taken or not)
advances the recorded timestamp by at least `⌊qpf / targetFPS⌋` ticks, so any
run of `n` iterations takes at least `n * ⌊qpf / targetFPS⌋` ticks in total;
at 60 FPS this equals `n/60` seconds exactly when 60 divides the counter
frequency, and can fall short of `n/60` seconds (by less than `n` ticks)
otherwise, because the per-frame target is truncated by integer division. -/
theorem cpu_limiter_lower_bound (qpf targetFPS n : Nat) (entry lastSeq : Nat → Nat)
    (hb : ∀ k, lastSeq k ≤ entry k)
    (hstep : ∀ k, lastSeq (k + 1) = executeCPU qpf targetFPS (lastSeq k) (entry k)) :
    lastSeq 0 + n * targetFrameTicks qpf targetFPS ≤ lastSeq n ∧
    (60 ∣ qpf → 0 < qpf → (n * targetFrameTicks qpf 60 : ℚ) / qpf = n / 60) := by
  constructor
  · induction n with
    | zero => omega
    | succ n ih =>
        have hone : lastSeq n + targetFrameTicks qpf targetFPS ≤ lastSeq (n + 1) := by
          rw [hstep n]
          unfold executeCPU timerSleepQPC
          have := hb n
          split
          · exact le_max_right _ _
          · omega
        have := ih
        calc lastSeq 0 + (n + 1) * targetFrameTicks qpf targetFPS
            = lastSeq 0 + n * targetFrameTicks qpf targetFPS + targetFrameTicks qpf targetFPS := by
              ring
          _ ≤ lastSeq n + targetFrameTicks qpf targetFPS := by omega
          _ ≤ lastSeq (n + 1) := hone
  · intro hdvd hpos
    obtain ⟨c, rfl⟩ := hdvd
    have hc : 0 < c := by omega
    unfold targetFrameTicks
    rw [Nat.mul_div_cancel_left c (by norm_num)]
    have hcQ : (c : ℚ) ≠ 0 := by
      exact_mod_cast Nat.pos_iff_ne_zero.mp hc
    push_cast
    field_simp
    ring

/-- Witness for the amended C7 bound: a 600-tick/s clock at 60 FPS with the
trace that gains exactly 10 ticks per frame. -/
def cpuWitSeq (k : Nat) : Nat := 10 * k

/-- Witness for C7 (amended) after 3 iterations of the concrete trace. -/
theorem cpu_limiter_lower_bound_witness :
    cpuWitSeq 0 + 3 * targetFrameTicks 600 60 ≤ cpuWitSeq 3 ∧
    (60 ∣ 600 → 0 < 600 → (3 * targetFrameTicks 600 60 : ℚ) / 600 = 3 / 60) :=
  cpu_limiter_lower_bound 600 60 3 cpuWitSeq cpuWitSeq (fun k => le_refl _)
    (fun k => by
      unfold cpuWitSeq executeCPU targetFrameTicks timerSleepQPC
      simp
      omega)

end FPSLimiter

namespace FPSLimiter

/-- `DampenFactor = 0.05` of the GPU limiter. -/
def DampenFactor : ℚ := 5 / 100

/-- `MaxTargetFrameTimeUs = 200000.0` (200 ms, 5 fps). -/
def MaxTargetFrameTimeUs : ℚ := 200000

/-- `MinTargetFrameTimeUs = 50.0`. -/
def MinTargetFrameTimeUs : ℚ := 50

/-- The clamped target frame time:
`std::max(std::min(targetFrameTimeUs, Max), Min)`. -/
def clampedTargetFrameTime (targetFrameTimeUs : ℚ) : ℚ :=
  max (min targetFrameTimeUs MaxTargetFrameTimeUs) MinTargetFrameTimeUs

/-- One GPU-limiter overhead update of `Execute` (GPU branch), in exact
rational arithmetic: `deltaRatio = (recentFrameTimeMean - clampedTarget) /
clampedTarget; m_Overhead -= m_Overhead * deltaRatio * DampenFactor;
m_Overhead = min(max(1.0, m_Overhead), 1000000.0)`. -/
def overheadUpdate (overhead recentFrameTimeMean targetFrameTimeUs : ℚ) : ℚ :=
  let clamped := clampedTargetFrameTime targetFrameTimeUs
  let deltaR := (recentFrameTimeMean - clamped) / clamped
  min (max 1 (overhead - overhead * deltaR * DampenFactor)) 1000000

/-- C8: after every GPU-limiter update the overhead scalar lies in
`[1, 1000000]`; the target frame time is clamped to `[50, 200000]`
microseconds; and when the rolling mean equals the clamped target the
deltaRatio is zero, so an in-range overhead is returned unchanged (a stable
fixed point under unchanging input). -/
theorem overheadUpdate_spec (overhead recentFrameTimeMean targetFrameTimeUs : ℚ) :
    (1 ≤ overheadUpdate overhead recentFrameTimeMean targetFrameTimeUs ∧
      overheadUpdate overhead recentFrameTimeMean targetFrameTimeUs ≤ 1000000) ∧
    (50 ≤ clampedTargetFrameTime targetFrameTimeUs ∧
      clampedTargetFrameTime targetFrameTimeUs ≤ 200000) ∧
    (recentFrameTimeMean = clampedTargetFrameTime targetFrameTimeUs →
      (recentFrameTimeMean - clampedTargetFrameTime targetFrameTimeUs) /
        clampedTargetFrameTime targetFrameTimeUs = 0 ∧
      (1 ≤ overhead → overhead ≤ 1000000 →
        overheadUpdate overhead recentFrameTimeMean targetFrameTimeUs = overhead)) := by
  refine ⟨⟨?_, ?_⟩, ⟨?_, ?_⟩, ?_⟩
  · unfold overheadUpdate
    refine le_min ?_ (by norm_num)
    exact le_max_left _ _
  · unfold overheadUpdate
    exact min_le_right _ _
  · unfold clampedTargetFrameTime MinTargetFrameTimeUs
    exact le_max_right _ _
  · unfold clampedTargetFrameTime MaxTargetFrameTimeUs MinTargetFrameTimeUs
    refine max_le (le_trans (min_le_right _ _) (by norm_num)) (by norm_num)
  · intro hmean
    constructor
    · rw [hmean, sub_self, zero_div]
    · intro h1 h2
      simp only [overheadUpdate]
      rw [hmean, sub_self, zero_div, mul_zero, zero_mul, sub_zero]
      rw [max_eq_right h1, min_eq_left h2]

/-- Witness for C8 at overhead 500, mean equal to the clamped 60 FPS target
(16666 us). -/
theorem overheadUpdate_spec_witness :
    ((1 : ℚ) ≤ overheadUpdate 500 16666 16666 ∧ overheadUpdate 500 16666 16666 ≤ 1000000) ∧
    (((16666 : ℚ) - clampedTargetFrameTime 16666) / clampedTargetFrameTime 16666 = 0 ∧
      overheadUpdate 500 16666 16666 = 500) :=
  ⟨(overheadUpdate_spec 500 16666 16666).1,
   ⟨((overheadUpdate_spec 500 16666 16666).2.2 (by
      unfold clampedTargetFrameTime MaxTargetFrameTimeUs MinTargetFrameTimeUs
      norm_num)).1,
    ((overheadUpdate_spec 500 16666 16666).2.2 (by
      unfold clampedTargetFrameTime MaxTargetFrameTimeUs MinTargetFrameTimeUs
      norm_num)).2 (by norm_num) (by norm_num)⟩⟩

end FPSLimiter

namespace Streamer

/-- Outcome of one `Streamer::Encode` write phase: how many warnings were
logged, whether the pipe-open flag is still raised afterwards, and how many
`WriteFile` attempts were made. -/
structure EncodeOutcome where
  warnings : Nat
  isPipeOpen : Bool
  writeAttempts : Nat
deriving DecidableEq, Repr

/-- The `while (tries < 3)` retry loop of `Streamer::Encode`:
`bytesWritten k` is what the `k`-th `WriteFile` reports; a full write flushes
and succeeds (pipe stays open, no warning); a short write terminates and
recreates the encoder process (leaving the pipe open again) and retries;
falling out of the loop reaches the `fail:` label: one warning, terminate,
pipe-open flag lowered. -/
def encodeWriteLoop (bytesWritten : Nat → Nat) (frameSize : Nat) (tries : Nat) :
    EncodeOutcome :=
  if h : tries < 3 then
    if bytesWritten tries = frameSize then
      { warnings := 0, isPipeOpen := true, writeAttempts := tries + 1 }
    else
      encodeWriteLoop bytesWritten frameSize (tries + 1)
  else
    { warnings := 1, isPipeOpen := false, writeAttempts := tries }
termination_by 3 - tries

/-- `Streamer::Encode` restricted to its pipe-write phase: returns `none`
when the pipe-open flag is already lowered (the early
`if (!m_isPipeOpen) return;`), else runs the retry loop from `tries = 0`. -/
def Encode (isPipeOpen : Bool) (bytesWritten : Nat → Nat) (frameSize : Nat) :
    Option EncodeOutcome :=
  if isPipeOpen then some (encodeWriteLoop bytesWritten frameSize 0) else none

/-- C9: a pipe write short of the full frame size is retried up to 3 total
attempts with the encoder process recreated in between; if all 3 attempts
fall short, exactly one warning is logged and the pipe-open flag is lowered
(so later `Encode` calls return immediately); if the `k`-th attempt (k < 3)
writes the full frame, no warning is logged and streaming stays enabled. -/
theorem encode_retry_spec (bytesWritten : Nat → Nat) (frameSize : Nat) :
    ((∀ k, k < 3 → bytesWritten k ≠ frameSize) →
      Encode true bytesWritten frameSize =
        some { warnings := 1, isPipeOpen := false, writeAttempts := 3 }) ∧
    (∀ k, k < 3 → bytesWritten k = frameSize → (∀ j, j < k → bytesWritten j ≠ frameSize) →
      Encode true bytesWritten frameSize =
        some { warnings := 0, isPipeOpen := true, writeAttempts := k + 1 }) ∧
    (Encode false bytesWritten frameSize = none) := by
  refine ⟨?_, ?_, rfl⟩
  · intro hall
    unfold Encode
    rw [if_pos rfl]
    rw [encodeWriteLoop, dif_pos (by norm_num), if_neg (hall 0 (by norm_num))]
    rw [encodeWriteLoop, dif_pos (by norm_num), if_neg (hall 1 (by norm_num))]
    rw [encodeWriteLoop, dif_pos (by norm_num), if_neg (hall 2 (by norm_num))]
    rw [encodeWriteLoop, dif_neg (by norm_num)]
  · intro k hk hsucc hbefore
    unfold Encode
    rw [if_pos rfl]
    interval_cases k
    · rw [encodeWriteLoop, dif_pos (by norm_num), if_pos hsucc]
    · rw [encodeWriteLoop, dif_pos (by norm_num), if_neg (hbefore 0 (by norm_num))]
      rw [encodeWriteLoop, dif_pos (by norm_num), if_pos hsucc]
    · rw [encodeWriteLoop, dif_pos (by norm_num), if_neg (hbefore 0 (by norm_num))]
      rw [encodeWriteLoop, dif_pos (by norm_num), if_neg (hbefore 1 (by norm_num))]
      rw [encodeWriteLoop, dif_pos (by norm_num), if_pos hsucc]

/-- Write results for the C9 witness: the first attempt writes 100 of 1024
bytes, the second writes the full 1024. -/
def encodeWitWrites (k : Nat) : Nat := if k = 1 then 1024 else 100

/-- Witness for C9: the second attempt succeeds, so no warning is logged,
the pipe stays open, and exactly 2 write attempts were made. -/
theorem encode_retry_spec_witness :
    Encode true encodeWitWrites 1024 =
      some { warnings := 0, isPipeOpen := true, writeAttempts := 2 } :=
  (encode_retry_spec encodeWitWrites 1024).2.1 1 (by norm_num) (by decide)
    (fun j hj => by interval_cases j; decide)

end Streamer
